import Mathlib

/-! # Incremental first-fit clustering (`main.go`)

A shallow embedding of the clustering engine of `main.go` and machine-checked
statements about it.

Modelling conventions.

* A Go `string` that came out of `encoding/json` is valid UTF-8, so it is a
  sequence of Unicode scalar values: a Lean `String`.
* A Go `map[string]struct{}` is a finite set of keys: `Finset String`.
  `len(m)` is `Finset.card`, `_, found := m[w]` is membership, and a
  `for w := range m` loop that only counts is a sum over the set (its result
  does not depend on the iteration order).
* Go `int` values are `Int`; none of the arithmetic of the program can
  overflow (it adds two map lengths and subtracts a smaller count).
* `float64` values are modelled by `Float64` below: NaN, the two infinities,
  or a finite value carried as the exact rational quotient.  The only
  floating-point operations of the program are `float64(i) / float64(u)` for
  two `int`s and the comparison `>= 0.2`.
* The package-level variable `clusters` is threaded explicitly through the
  functions that read and write it; `successfulDownloads`, `clusters` and the
  snapshot directory make up the `State` of `get_and_cluster`.
* What the outside world decides is an argument: the result of `http.Get` and
  of the JSON decoder (`Fetched`), and how each call of `saveCluster` ends
  (`WriteOutcome`).  A file holds the cluster whose encoding was written to
  it.  Logging, timing and the wait group are left out.
* One call of `get_and_cluster` is one step: the part of it that touches the
  shared state runs between `mu.Lock()` and the deferred `mu.Unlock()`.
-/

namespace GoCluster

/-! ## `float64` -/

/-- A `float64` value: NaN, an infinity, or a finite value.  A finite value is
carried as the exact rational quotient before rounding: the `float64` of the
program is the one nearest to it, and the two are the same number only where
the quotient is itself a `float64` (as 0, 1/2 and 1 are).  Rounding to nearest
is monotone and leaves 0 and 1 as they are, and a quotient `i / u` below `1/5`
with `u < 2^53` is below it by at least `1 / (5 * 2^53)`, more than the
distance from `1/5` to the rounding boundary under the `float64` constant
`0.2`; so no comparison of the program changes its outcome for token sets of
fewer than `2^53` elements. -/
inductive Float64 where
  | nan : Float64
  | posInf : Float64
  | negInf : Float64
  | val (q : ℚ) : Float64
deriving DecidableEq

namespace Float64

/-- Go expression `float64(a) / float64(b)` for two `int`s (IEEE 754 division:
`0/0` is NaN, a non-zero value over zero is an infinity, no run-time panic). -/
def divInt (a b : Int) : Float64 :=
  if b = 0 then
    if a = 0 then nan else if 0 < a then posInf else negInf
  else val ((a : ℚ) / (b : ℚ))

/-- Go `x <= y` on `float64`: false as soon as one operand is NaN. -/
def le : Float64 → Float64 → Bool
  | nan, _ => false
  | _, nan => false
  | negInf, _ => true
  | _, posInf => true
  | posInf, _ => false
  | _, negInf => false
  | val a, val b => decide (a ≤ b)

/-- Go `x >= y` on `float64`. -/
def ge (x y : Float64) : Bool := le y x

/-- Go `x == y` on `float64`: NaN is not equal to anything, itself included. -/
def eq : Float64 → Float64 → Bool
  | nan, _ => false
  | _, nan => false
  | posInf, posInf => true
  | negInf, negInf => true
  | val a, val b => decide (a = b)
  | _, _ => false

/-- Go `x < y` on `float64`: false as soon as one operand is NaN. -/
def lt : Float64 → Float64 → Bool
  | nan, _ => false
  | _, nan => false
  | posInf, _ => false
  | _, negInf => false
  | negInf, _ => true
  | _, posInf => true
  | val a, val b => decide (a < b)

/-- Go `x > y` on `float64`. -/
def gt (x y : Float64) : Bool := lt y x

/-- Go `math.IsNaN`. -/
def isNaN : Float64 → Bool
  | nan => true
  | _ => false

end Float64

/-- The constant `0.2` of line 111. -/
def threshold : Float64 := Float64.val (1 / 5)

/-! ## `strings.Fields` (Go standard library) -/

/-- Go `unicode.IsSpace`: the Latin-1 spaces `\t \n \v \f \r`, space, U+0085,
U+00A0, and the other code points with the `White_Space` property. -/
def isSpace (c : Char) : Bool :=
  let n := c.toNat
  (9 ≤ n && n ≤ 13) || n = 0x20 || n = 0x85 || n = 0xA0 || n = 0x1680 ||
  (0x2000 ≤ n && n ≤ 0x200A) || n = 0x2028 || n = 0x2029 || n = 0x202F ||
  n = 0x205F || n = 0x3000

/-- The scanning loop of Go `strings.FieldsFunc(s, unicode.IsSpace)`.  The
second argument is the run being read: `none` when the loop variable `start`
is negative, `some run` when `start >= 0` and `run` is `s[start:end]`. -/
def fieldsLoop : List Char → Option (List Char) → List (List Char)
  | [], none => []
  | [], some run => [run]
  | c :: cs, none =>
    if isSpace c then fieldsLoop cs none else fieldsLoop cs (some [c])
  | c :: cs, some run =>
    if isSpace c then run :: fieldsLoop cs none else fieldsLoop cs (some (run ++ [c]))

/-- Go `strings.Fields`: the substrings between runs of white space. -/
def Fields (s : String) : List String :=
  (fieldsLoop s.data none).map String.mk

/-! ## `main.go` -/

/-- Go `type content struct` (lines 15-22). -/
structure content where
  Num : Int
  Day : String
  Month : String
  Year : String
  Title : String
  Transcript : String
deriving DecidableEq

/-- Go `type centre struct` (lines 24-28). -/
structure centre where
  Titleset : Finset String
  Transcriptset : Finset String
  Num : Int
deriving DecidableEq

/-- Go `type cluster struct` (lines 30-33). -/
structure cluster where
  Centre : centre
  Members : List content
deriving DecidableEq

/-- Go `textToSet` (lines 45-52): every word of `strings.Fields(text)` is put
in a fresh map. -/
def textToSet (text : String) : Finset String :=
  (Fields text).foldl (fun set word => insert word set) ∅

/-- The counter `intersection` at the end of the loop of lines 55-60: one
increment per key of `set1` that is found in `set2`. -/
def intersectionCount (set1 set2 : Finset String) : Int :=
  ∑ word in set1, if word ∈ set2 then 1 else 0

/-- The local `union` of line 61. -/
def unionCount (set1 set2 : Finset String) : Int :=
  (set1.card : Int) + (set2.card : Int) - intersectionCount set1 set2

/-- Go `jaccardSimilarity` (lines 54-63). -/
def jaccardSimilarity (set1 set2 : Finset String) : Float64 :=
  Float64.divInt (intersectionCount set1 set2) (unionCount set1 set2)

/-- The condition of line 111 for one cluster of the registry: the record's
title set or its transcript set scores `>= 0.2` against the cluster's centre. -/
def matchesCentre (titleSet transcriptSet : Finset String) (c : cluster) : Bool :=
  (jaccardSimilarity titleSet c.Centre.Titleset).ge threshold ||
  (jaccardSimilarity transcriptSet c.Centre.Transcriptset).ge threshold

/-- The loop of lines 107-116 over the registry from its current position on:
the first cluster that matches gets `comic` appended to its members and the
loop breaks.  Returns the registry and the flag `foundCluster`. -/
def scanClusters (titleSet transcriptSet : Finset String) (comic : content) :
    List cluster → List cluster × Bool
  | [] => ([], false)
  | c :: rest =>
    if matchesCentre titleSet transcriptSet c then
      ({ c with Members := c.Members ++ [comic] } :: rest, true)
    else
      let r := scanClusters titleSet transcriptSet comic rest
      (c :: r.1, r.2)

/-- The clustering step of `get_and_cluster` (lines 103-124) on the registry
`clusters` for the decoded record `comic`. -/
def clusterStep (clusters : List cluster) (comic : content) : List cluster :=
  let titleSet := textToSet comic.Title
  let transcriptSet := textToSet comic.Transcript
  let r := scanClusters titleSet transcriptSet comic clusters
  if !r.2 then
    r.1 ++ [{ Centre := { Titleset := titleSet, Transcriptset := transcriptSet, Num := comic.Num },
              Members := [comic] }]
  else r.1

/-- The registry after the clustering step has been applied, from the empty
registry, to the records in their order of arrival. -/
def ingestAll (records : List content) : List cluster :=
  records.foldl clusterStep []

/-! ## Persistence and the whole of `get_and_cluster` -/

/-- Go `fmt.Sprintf("%d", n)` for a natural number: its decimal digits, most
significant first, `0` for zero. -/
def fmtNat (n : Nat) : List Char :=
  if n = 0 then ['0'] else (Nat.digits 10 n).reverse.map Nat.digitChar

/-- Go `fmt.Sprintf("%d", n)` for an `int`: a minus sign in front of the digits
of a negative number. -/
def fmtInt (n : Int) : List Char :=
  if n < 0 then '-' :: fmtNat n.natAbs else fmtNat n.natAbs

/-- The file name of a centre key (line 66):
`filepath.Join(OFFLINE_INDEX, fmt.Sprintf("cluster%d.json", key))` with
`OFFLINE_INDEX = "./clusters"`; `Join` cleans the leading `./` away. -/
def keyPath (key : Int) : String :=
  String.mk ("clusters/cluster".data ++ fmtInt key ++ ".json".data)

/-- The local `filePath` of `saveCluster` (line 66). -/
def filePath (c : cluster) : String :=
  keyPath c.Centre.Num

/-- What a file holds: the complete JSON encoding of a cluster, or the
remains of a write that `os.Create` began (the file is emptied) and the
encoder did not finish. -/
inductive Stored where
  | snapshot (c : cluster) : Stored
  | incomplete : Stored
deriving DecidableEq

/-- The directory of snapshots: what each file name holds, and the file names
handed to `os.Create` so far, in order. -/
structure FileSystem where
  contents : String → Option Stored
  creates : List String

/-- How one call of `saveCluster` ends; the file system decides. -/
inductive WriteOutcome where
  | createFails : WriteOutcome
  | encodeFails : WriteOutcome
  | ok : WriteOutcome
deriving DecidableEq

/-- Go `saveCluster` (lines 65-74).  The result holds the file system after
the call and whether the returned `error` is non-nil.  When `os.Create` fails
nothing is written; when it succeeds the old content of the file is gone, and
the file holds the snapshot exactly when the encoder succeeds too. -/
def saveCluster (fs : FileSystem) (c : cluster) (o : WriteOutcome) : FileSystem × Bool :=
  let path := filePath c
  match o with
  | WriteOutcome.createFails =>
    ({ contents := fs.contents, creates := fs.creates ++ [path] }, true)
  | WriteOutcome.encodeFails =>
    ({ contents := fun p => if p = path then some Stored.incomplete else fs.contents p,
       creates := fs.creates ++ [path] }, true)
  | WriteOutcome.ok =>
    ({ contents := fun p => if p = path then some (Stored.snapshot c) else fs.contents p,
       creates := fs.creates ++ [path] }, false)

/-- The persistence pass of lines 126-130 from the `k`-th cluster of the
registry on: every cluster is saved, a failure is logged and the loop goes on.
`env k` is how the `k`-th call of `saveCluster` of the pass ends. -/
def persistLoop (env : Nat → WriteOutcome) : Nat → List cluster → FileSystem → FileSystem
  | _, [], fs => fs
  | k, c :: rest, fs => persistLoop env (k + 1) rest (saveCluster fs c (env k)).1

/-- What `http.Get(url)` and the JSON decoder give to one call of
`get_and_cluster`: a transport error, or a response with its status code and
the result of decoding its body as a `content` (`none` for a decode error). -/
inductive Fetched where
  | transportError : Fetched
  | response (statusCode : Int) (decoded : Option content) : Fetched

/-- The package-level variables `successfulDownloads` and `clusters` (lines
38-43) and the snapshot directory. -/
structure State where
  successfulDownloads : Int
  clusters : List cluster
  fs : FileSystem

/-- Go `get_and_cluster` (lines 76-134), for what the fetch of `url` gave and
the write outcomes `env` of its persistence pass.  The body between `mu.Lock()`
and the deferred `mu.Unlock()` runs as one step. -/
def get_and_cluster (st : State) (fetched : Fetched) (env : Nat → WriteOutcome) : State :=
  match fetched with
  | Fetched.transportError => st
  | Fetched.response statusCode decoded =>
    if statusCode = 200 then
      match decoded with
      | none => st
      | some comic =>
        let clusters := clusterStep st.clusters comic
        { successfulDownloads := st.successfulDownloads + 1,
          clusters := clusters,
          fs := persistLoop env 0 clusters st.fs }
    else st

/-- The state of the program before the first call: no download, no cluster,
an empty directory. -/
def initialState : State :=
  { successfulDownloads := 0, clusters := [],
    fs := { contents := fun _ => none, creates := [] } }

/-- A pass in which every write succeeds. -/
def allOk : Nat → WriteOutcome := fun _ => WriteOutcome.ok

/-! ## Specification vocabulary -/

/-- The list `t` occurs in `s` as a maximal run of non-space characters: it is
not empty, holds no white space, and is bounded on each side by the end of `s`
or by a white-space character. -/
def IsMaximalRun (t s : List Char) : Prop :=
  t ≠ [] ∧ (∀ c ∈ t, isSpace c = false) ∧
  ∃ pre post, s = pre ++ t ++ post ∧
    (∀ c, pre.getLast? = some c → isSpace c = true) ∧
    (∀ c, post.head? = some c → isSpace c = true)

/-- Record `R` scores `>= 0.2` against the centre of cluster `c` on title-token
similarity or on transcript-token similarity. -/
def Matches (R : content) (c : cluster) : Prop :=
  (jaccardSimilarity (textToSet R.Title) c.Centre.Titleset).ge threshold = true ∨
  (jaccardSimilarity (textToSet R.Transcript) c.Centre.Transcriptset).ge threshold = true

instance (R : content) (c : cluster) : Decidable (Matches R c) := by
  unfold Matches
  infer_instance

/-- The identifiers of the members of a cluster, in order. -/
def memberNums (c : cluster) : List Int :=
  c.Members.map (fun m => m.Num)

/-- All members of all clusters, cluster after cluster. -/
def allMembers (cs : List cluster) : List content :=
  (cs.map (fun c => c.Members)).flatten

/-! ## Sample records -/

/-- The record `{num:1, title:"a b c", transcript:"x y"}`. -/
def comic1 : content :=
  { Num := 1, Day := "", Month := "", Year := "", Title := "a b c", Transcript := "x y" }

/-- The record `{num:2, title:"a b d", transcript:"x y"}`. -/
def comic2 : content :=
  { Num := 2, Day := "", Month := "", Year := "", Title := "a b d", Transcript := "x y" }

/-- The record `{num:3, title:"z q", transcript:"m n"}`. -/
def comic3 : content :=
  { Num := 3, Day := "", Month := "", Year := "", Title := "z q", Transcript := "m n" }

/-- The cluster founded by `comic1` alone. -/
def cluster1 : cluster :=
  { Centre := { Titleset := textToSet comic1.Title, Transcriptset := textToSet comic1.Transcript,
                Num := comic1.Num },
    Members := [comic1] }

/-- A record whose title and transcript share nothing with `greedyB`. -/
def greedyA : content :=
  { Num := 10, Day := "", Month := "", Year := "", Title := "a b c d", Transcript := "p q r s" }

/-- A record whose title and transcript share nothing with `greedyA`. -/
def greedyB : content :=
  { Num := 20, Day := "", Month := "", Year := "", Title := "e f g h", Transcript := "t u v w" }

/-- A record close to `greedyB` (score 2/3) and less close to `greedyA` (score
1/4), on title and on transcript. -/
def greedyR : content :=
  { Num := 30, Day := "", Month := "", Year := "", Title := "a b e f g h",
    Transcript := "p q t u v w" }

/-- The cluster a record founds (lines 119-122). -/
def founded (comic : content) : cluster :=
  { Centre := { Titleset := textToSet comic.Title, Transcriptset := textToSet comic.Transcript,
                Num := comic.Num },
    Members := [comic] }

/-- A record with identifier 7. -/
def dupA : content :=
  { Num := 7, Day := "", Month := "", Year := "", Title := "a", Transcript := "x" }

/-- Another record with identifier 7, sharing no token with `dupA`. -/
def dupB : content :=
  { Num := 7, Day := "", Month := "", Year := "", Title := "b", Transcript := "y" }

/-- The state after `dupA` was fetched and ingested from the initial state,
every write succeeding. -/
def stateAfterDupA : State :=
  get_and_cluster initialState (Fetched.response 200 (some dupA)) allOk

/-- The state after `dupB` was then fetched and ingested, every write
succeeding. -/
def stateAfterDupB : State :=
  get_and_cluster stateAfterDupA (Fetched.response 200 (some dupB)) allOk

/-- A pass in which the encoder fails in the second call of `saveCluster` and
every other write succeeds. -/
def secondEncodeFails : Nat → WriteOutcome :=
  fun k => if k = 1 then WriteOutcome.encodeFails else WriteOutcome.ok

/-- The state after `dupB` was fetched and ingested after `dupA`, the second
write of the pass failing. -/
def stateAfterDupBFailing : State :=
  get_and_cluster stateAfterDupA (Fetched.response 200 (some dupB)) secondEncodeFails

/-- A record with an empty transcript. -/
def nanA : content :=
  { Num := 1, Day := "", Month := "", Year := "", Title := "a", Transcript := "" }

/-- Another record with an empty transcript, sharing no title token with
`nanA`. -/
def nanB : content :=
  { Num := 2, Day := "", Month := "", Year := "", Title := "b", Transcript := "" }

/-- The state after `comic1` was fetched and ingested from the initial state,
every write succeeding. -/
def stateAfterComic1 : State :=
  get_and_cluster initialState (Fetched.response 200 (some comic1)) allOk

/-! ## The similarity function -/

theorem intersectionCount_eq (a b : Finset String) :
    intersectionCount a b = ((a ∩ b).card : Int) := by
  unfold intersectionCount
  rw [Finset.sum_boole, Finset.filter_mem_eq_inter]

theorem unionCount_eq (a b : Finset String) :
    unionCount a b = ((a ∪ b).card : Int) := by
  unfold unionCount
  rw [intersectionCount_eq]
  have h := Finset.card_union_add_card_inter a b
  omega

theorem jaccardSimilarity_eq_div (a b : Finset String) :
    jaccardSimilarity a b = Float64.divInt ((a ∩ b).card : Int) ((a ∪ b).card : Int) := by
  unfold jaccardSimilarity
  rw [intersectionCount_eq, unionCount_eq]

/-- The rational that the model carries for a finite score: the quotient of the
two sizes before rounding. -/
theorem jaccardSimilarity_of_nonempty (a b : Finset String) (h : (a ∪ b).Nonempty) :
    jaccardSimilarity a b = Float64.val (((a ∩ b).card : ℚ) / ((a ∪ b).card : ℚ)) := by
  rw [jaccardSimilarity_eq_div]
  have hc : ((a ∪ b).card : Int) ≠ 0 := by
    have := Finset.card_pos.mpr h
    omega
  simp [Float64.divInt, hc]

theorem jaccardSimilarity_of_empty (a b : Finset String) (h : a ∪ b = ∅) :
    jaccardSimilarity a b = Float64.nan := by
  rw [jaccardSimilarity_eq_div]
  have hi : a ∩ b = ∅ := by
    rw [Finset.union_eq_empty] at h
    simp [h.1]
  simp [Float64.divInt, h, hi]

theorem jaccardSimilarity_comm (a b : Finset String) :
    jaccardSimilarity a b = jaccardSimilarity b a := by
  rw [jaccardSimilarity_eq_div, jaccardSimilarity_eq_div, Finset.inter_comm, Finset.union_comm]

theorem Float64.eq_val_self (q : ℚ) : Float64.eq (Float64.val q) (Float64.val q) = true := by
  simp [Float64.eq]

/-- Away from the pair of two empty sets the Go comparison `==` sees the
symmetry of the similarity. -/
theorem jaccardSimilarity_symm_of_nonempty (a b : Finset String) (h : (a ∪ b).Nonempty) :
    Float64.eq (jaccardSimilarity a b) (jaccardSimilarity b a) = true := by
  rw [← jaccardSimilarity_comm a b, jaccardSimilarity_of_nonempty a b h]
  exact Float64.eq_val_self _

/-- Away from the pair of two empty sets the similarity lies in `[0, 1]`. -/
theorem jaccardSimilarity_bounds_of_nonempty (a b : Finset String) (h : (a ∪ b).Nonempty) :
    Float64.le (Float64.val 0) (jaccardSimilarity a b) = true ∧
    Float64.le (jaccardSimilarity a b) (Float64.val 1) = true := by
  rw [jaccardSimilarity_of_nonempty a b h]
  have hpos : (0 : ℚ) < ((a ∪ b).card : ℚ) := by
    exact_mod_cast Finset.card_pos.mpr h
  have hle : ((a ∩ b).card : ℚ) ≤ ((a ∪ b).card : ℚ) := by
    exact_mod_cast Finset.card_le_card (Finset.inter_subset_union)
  constructor
  · simp only [Float64.le, decide_eq_true_eq]
    positivity
  · simp only [Float64.le, decide_eq_true_eq]
    exact (div_le_one hpos).mpr hle

/-- C3. For all token sets `a` and `b`, the counter of the loop is the size of
the intersection, the value `len(a) + len(b) - intersection` is the size of the
union, and `jaccardSimilarity` returns the `float64` quotient
`float64(|a ∩ b|) / float64(|a ∪ b|)` of the two sizes. -/
theorem jaccardSimilarity_is_inter_over_union (a b : Finset String) :
    intersectionCount a b = ((a ∩ b).card : Int) ∧
    unionCount a b = ((a ∪ b).card : Int) ∧
    jaccardSimilarity a b = Float64.divInt ((a ∩ b).card : Int) ((a ∪ b).card : Int) :=
  ⟨intersectionCount_eq a b, unionCount_eq a b, jaccardSimilarity_eq_div a b⟩

/-- C4, at the failing input. On two empty token sets the union is zero, the
division is not guarded, and `jaccardSimilarity` returns NaN; the result is NaN
for this pair of inputs and for no other. -/
theorem jaccardSimilarity_empty_empty_is_nan :
    (unionCount (textToSet "") (textToSet "") = 0 ∧
      jaccardSimilarity (textToSet "") (textToSet "") = Float64.nan) ∧
    ∀ a b : Finset String, Float64.isNaN (jaccardSimilarity a b) = true ↔ a = ∅ ∧ b = ∅ := by
  refine ⟨by decide, fun a b => ?_⟩
  rw [← Finset.union_eq_empty]
  rcases Finset.eq_empty_or_nonempty (a ∪ b) with h | h
  · simp [jaccardSimilarity_of_empty a b h, h, Float64.isNaN]
  · simp [jaccardSimilarity_of_nonempty a b h, h.ne_empty, Float64.isNaN]

/-- C5, at the failing input. With both token sets empty the two calls return
NaN, and the Go comparison `jaccardSimilarity(A, B) == jaccardSimilarity(B, A)`
is false; it is true for every other pair of token sets. -/
theorem jaccardSimilarity_symmetry_fails_on_empty :
    Float64.eq (jaccardSimilarity ∅ ∅) (jaccardSimilarity ∅ ∅) = false ∧
    ∀ a b : Finset String,
      Float64.eq (jaccardSimilarity a b) (jaccardSimilarity b a) = true ↔ (a ∪ b).Nonempty := by
  refine ⟨by decide, fun a b => ⟨fun h => ?_, jaccardSimilarity_symm_of_nonempty a b⟩⟩
  rcases Finset.eq_empty_or_nonempty (a ∪ b) with he | hne
  · rw [jaccardSimilarity_of_empty a b he] at h
    simp [Float64.eq] at h
  · exact hne

/-- C6, at the failing input. With both token sets empty the result is NaN, so
neither `0 <= jaccardSimilarity(A, B)` nor `jaccardSimilarity(A, B) <= 1`
holds; both hold for every other pair of token sets. -/
theorem jaccardSimilarity_bounds_fail_on_empty :
    (Float64.le (Float64.val 0) (jaccardSimilarity ∅ ∅) = false ∧
      Float64.le (jaccardSimilarity ∅ ∅) (Float64.val 1) = false) ∧
    ∀ a b : Finset String,
      (Float64.le (Float64.val 0) (jaccardSimilarity a b) = true ∧
        Float64.le (jaccardSimilarity a b) (Float64.val 1) = true) ↔ (a ∪ b).Nonempty := by
  refine ⟨by decide, fun a b => ⟨fun h => ?_, jaccardSimilarity_bounds_of_nonempty a b⟩⟩
  rcases Finset.eq_empty_or_nonempty (a ∪ b) with he | hne
  · rw [jaccardSimilarity_of_empty a b he] at h
    simp [Float64.le] at h
  · exact hne

/-- C7. For every non-empty token set `A`, `jaccardSimilarity(A, A)` is the
value 1, and the Go comparison `jaccardSimilarity(A, A) == 1` is true. -/
theorem jaccardSimilarity_self (a : Finset String) (h : a.Nonempty) :
    jaccardSimilarity a a = Float64.val 1 ∧
    Float64.eq (jaccardSimilarity a a) (Float64.val 1) = true := by
  have hu : (a ∪ a).Nonempty := by simpa using h
  have hc : ((a.card : ℚ)) ≠ 0 := by
    have := Finset.card_pos.mpr h
    exact_mod_cast this.ne.symm
  have hv : jaccardSimilarity a a = Float64.val 1 := by
    rw [jaccardSimilarity_of_nonempty a a hu]
    simp [hc]
  exact ⟨hv, by rw [hv]; exact Float64.eq_val_self 1⟩

theorem jaccardSimilarity_self_witness :
    (textToSet "a b c").Nonempty ∧
    jaccardSimilarity (textToSet "a b c") (textToSet "a b c") = Float64.val 1 ∧
    Float64.eq (jaccardSimilarity (textToSet "a b c") (textToSet "a b c")) (Float64.val 1) = true :=
  ⟨by decide, jaccardSimilarity_self (textToSet "a b c") (by decide)⟩

/-! ## The lexical set extractor -/

theorem getLast?_append_cons (a pre : List Char) (c d : Char)
    (h : (a ++ c :: pre).getLast? = some d) : (pre = [] ∧ d = c) ∨ pre.getLast? = some d := by
  rw [List.getLast?_append] at h
  cases pre with
  | nil => left; simpa [eq_comm] using h
  | cons x xs =>
    right
    rw [List.getLast?_cons_cons] at h
    cases hx : (x :: xs).getLast? with
    | none => simp at hx
    | some y => rw [hx] at h; simpa using h

theorem head?_append_cons (post b : List Char) (c d : Char)
    (h : (post ++ c :: b).head? = some d) : (post = [] ∧ d = c) ∨ post.head? = some d := by
  cases post with
  | nil => left; simpa [eq_comm] using h
  | cons x xs => right; simpa using h

theorem not_isMaximalRun_nil (t : List Char) : ¬ IsMaximalRun t [] := by
  rintro ⟨hne, -, pre, post, heq, -, -⟩
  have := congrArg List.length heq
  simp only [List.length_nil, List.length_append] at this
  exact hne (List.eq_nil_of_length_eq_zero (by omega))

theorem isMaximalRun_split (t a b : List Char) (c : Char) (hc : isSpace c = true) :
    IsMaximalRun t (a ++ c :: b) ↔ IsMaximalRun t a ∨ IsMaximalRun t b := by
  constructor
  · rintro ⟨hne, hns, pre, post, heq, hpre, hpost⟩
    rw [List.append_assoc] at heq
    rcases List.append_eq_append_iff.mp heq with ⟨a', hp, hb⟩ | ⟨c', ha, hd⟩
    · cases a' with
      | nil =>
        cases t with
        | nil => exact absurd rfl hne
        | cons x t' =>
          simp only [List.nil_append, List.cons_append, List.cons.injEq] at hb
          have := hns x (List.mem_cons_self _ _)
          rw [← hb.1, hc] at this
          exact absurd this (by simp)
      | cons x a'' =>
        simp only [List.cons_append, List.cons.injEq] at hb
        right
        refine ⟨hne, hns, a'', post, by rw [hb.2, List.append_assoc], ?_, hpost⟩
        intro d hd
        apply hpre
        rw [hp, List.getLast?_append]
        cases a'' with
        | nil => simp at hd
        | cons y ys => rw [List.getLast?_cons_cons, hd]; rfl
    · rcases List.append_eq_append_iff.mp hd with ⟨d, hc', hpost'⟩ | ⟨d, ht, hcb⟩
      · left
        refine ⟨hne, hns, pre, d, by rw [ha, hc', List.append_assoc], hpre, ?_⟩
        intro x hx
        apply hpost
        rw [hpost', List.head?_append, hx]; rfl
      · cases d with
        | nil =>
          left
          simp only [List.append_nil] at ht
          refine ⟨hne, hns, pre, [], by rw [ha, ht, List.append_nil], hpre, by simp⟩
        | cons x d' =>
          simp only [List.cons_append, List.cons.injEq] at hcb
          have := hns x (by rw [ht]; simp)
          rw [← hcb.1, hc] at this
          exact absurd this (by simp)
  · rintro (⟨hne, hns, pre, post, heq, hpre, hpost⟩ | ⟨hne, hns, pre, post, heq, hpre, hpost⟩)
    · refine ⟨hne, hns, pre, post ++ c :: b, by rw [heq]; simp, hpre, ?_⟩
      intro d hd
      rcases head?_append_cons post b c d hd with ⟨-, rfl⟩ | h
      · exact hc
      · exact hpost d h
    · refine ⟨hne, hns, a ++ c :: pre, post, by rw [heq]; simp, ?_, hpost⟩
      intro d hd
      rcases getLast?_append_cons a pre c d hd with ⟨-, rfl⟩ | h
      · exact hc
      · exact hpre d h

theorem isMaximalRun_of_run (t run : List Char) (hne : run ≠ [])
    (hrun : ∀ c ∈ run, isSpace c = false) : IsMaximalRun t run ↔ t = run := by
  constructor
  · rintro ⟨-, -, pre, post, heq, hpre, hpost⟩
    have hp : pre = [] := by
      rcases List.eq_nil_or_concat pre with h | ⟨p, x, h⟩
      · exact h
      · have h1 := hpre x (by rw [h]; simp)
        have h2 := hrun x (by rw [heq, h]; simp)
        rw [h1] at h2; exact absurd h2 (by simp)
    have hq : post = [] := by
      cases post with
      | nil => rfl
      | cons x xs =>
        have h1 := hpost x (by simp)
        have h2 := hrun x (by rw [heq]; simp)
        rw [h1] at h2; exact absurd h2 (by simp)
    rw [heq, hp, hq]; simp
  · rintro rfl
    exact ⟨hne, hrun, [], [], by simp, by simp, by simp⟩

theorem mem_fieldsLoop (s : List Char) :
    (∀ t, t ∈ fieldsLoop s none ↔ IsMaximalRun t s) ∧
    (∀ t run, run ≠ [] → (∀ c ∈ run, isSpace c = false) →
      (t ∈ fieldsLoop s (some run) ↔ IsMaximalRun t (run ++ s))) := by
  induction s with
  | nil =>
    refine ⟨fun t => ?_, fun t run hne hrun => ?_⟩
    · simp [fieldsLoop, not_isMaximalRun_nil]
    · simp [fieldsLoop, isMaximalRun_of_run t run hne hrun]
  | cons c cs ih =>
    refine ⟨fun t => ?_, fun t run hne hrun => ?_⟩
    · by_cases hc : isSpace c = true
      · have := isMaximalRun_split t [] cs c hc
        simp only [List.nil_append] at this
        simp [fieldsLoop, hc, ih.1 t, this, not_isMaximalRun_nil]
      · have hc' : isSpace c = false := by simpa using hc
        have := ih.2 t [c] (by simp) (by simpa using hc')
        simpa [fieldsLoop, hc'] using this
    · by_cases hc : isSpace c = true
      · have := isMaximalRun_split t run cs c hc
        simp [fieldsLoop, hc, ih.1 t, this, isMaximalRun_of_run t run hne hrun]
      · have hc' : isSpace c = false := by simpa using hc
        have := ih.2 t (run ++ [c]) (by simp) (by
          intro x hx
          rcases List.mem_append.mp hx with h | h
          · exact hrun x h
          · simpa [List.mem_singleton.mp h] using hc')
        simpa [fieldsLoop, hc'] using this

theorem mem_foldl_insert (l : List String) (init : Finset String) (w : String) :
    w ∈ l.foldl (fun set word => insert word set) init ↔ w ∈ init ∨ w ∈ l := by
  induction l generalizing init with
  | nil => simp
  | cons x xs ih =>
    rw [List.foldl_cons, ih]
    simp only [Finset.mem_insert, List.mem_cons]
    tauto

theorem mem_textToSet (text w : String) :
    w ∈ textToSet text ↔ IsMaximalRun w.data text.data := by
  unfold textToSet Fields
  rw [mem_foldl_insert, ← (mem_fieldsLoop text.data).1 w.data]
  simp only [Finset.not_mem_empty, false_or, List.mem_map]
  constructor
  · rintro ⟨l, hl, rfl⟩
    exact hl
  · intro h
    exact ⟨w.data, h, rfl⟩

/-- C8. For every text, a string belongs to `textToSet(text)` if and only if
it occurs in the text as a maximal run of non-white-space characters (so it is
not empty, holds no white space, and is taken from the text unchanged); and the
result is empty when every character of the text is white space, in particular
when the text is empty. -/
theorem textToSet_is_set_of_maximal_runs (text : String) :
    (∀ w : String, w ∈ textToSet text ↔ IsMaximalRun w.data text.data) ∧
    ((∀ c ∈ text.data, isSpace c = true) → textToSet text = ∅) := by
  refine ⟨mem_textToSet text, fun hall => ?_⟩
  apply Finset.eq_empty_of_forall_not_mem
  intro w hw
  obtain ⟨hne, hns, pre, post, heq, -, -⟩ := (mem_textToSet text w).mp hw
  cases hd : w.data with
  | nil => exact hne hd
  | cons x xs =>
    have h1 := hns x (by rw [hd]; simp)
    have h2 := hall x (by rw [heq, hd]; simp)
    rw [h1] at h2
    exact absurd h2 (by simp)

theorem textToSet_is_set_of_maximal_runs_witness :
    (∀ c ∈ (" \t\n ").data, isSpace c = true) ∧ textToSet " \t\n " = ∅ :=
  ⟨by decide, (textToSet_is_set_of_maximal_runs " \t\n ").2 (by decide)⟩

/-! ## The clustering step -/

theorem matchesCentre_iff (R : content) (c : cluster) :
    matchesCentre (textToSet R.Title) (textToSet R.Transcript) c = true ↔ Matches R c := by
  simp [matchesCentre, Matches]

theorem matchesCentre_eq_false_iff (R : content) (c : cluster) :
    matchesCentre (textToSet R.Title) (textToSet R.Transcript) c = false ↔ ¬ Matches R c := by
  rw [← matchesCentre_iff]; simp

/-- The threshold test in integers: the score is `>= 0.2` exactly when the
union is not empty and holds at most five times as many tokens as the
intersection. -/
theorem ge_threshold_iff (a b : Finset String) :
    (jaccardSimilarity a b).ge threshold = true ↔
      0 < (a ∪ b).card ∧ (a ∪ b).card ≤ 5 * (a ∩ b).card := by
  rcases Finset.eq_empty_or_nonempty (a ∪ b) with h | h
  · rw [jaccardSimilarity_of_empty a b h, h]
    simp [Float64.ge, Float64.le, threshold]
  · rw [jaccardSimilarity_of_nonempty a b h]
    have hpos : 0 < (a ∪ b).card := Finset.card_pos.mpr h
    have hposq : (0 : ℚ) < ((a ∪ b).card : ℚ) := by exact_mod_cast hpos
    simp only [Float64.ge, Float64.le, threshold, decide_eq_true_eq, hpos, true_and]
    rw [le_div_iff₀ hposq]
    constructor
    · intro hq
      have : ((a ∪ b).card : ℚ) ≤ 5 * ((a ∩ b).card : ℚ) := by linarith
      exact_mod_cast this
    · intro hn
      have : ((a ∪ b).card : ℚ) ≤ 5 * ((a ∩ b).card : ℚ) := by exact_mod_cast hn
      linarith

theorem scanClusters_no_match (ts tr : Finset String) (R : content) (cs : List cluster)
    (h : ∀ c ∈ cs, matchesCentre ts tr c = false) :
    scanClusters ts tr R cs = (cs, false) := by
  induction cs with
  | nil => rfl
  | cons c rest ih =>
    have hc := h c (List.mem_cons_self _ _)
    have hr := ih (fun d hd => h d (List.mem_cons_of_mem _ hd))
    simp [scanClusters, hc, hr]

theorem scanClusters_match (ts tr : Finset String) (R : content) (cs : List cluster)
    (h : ∃ c ∈ cs, matchesCentre ts tr c = true) :
    ∃ i, ∃ hi : i < cs.length,
      matchesCentre ts tr cs[i] = true ∧
      (∀ j c, j < i → cs[j]? = some c → matchesCentre ts tr c = false) ∧
      scanClusters ts tr R cs =
        (cs.set i { Centre := cs[i].Centre, Members := cs[i].Members ++ [R] }, true) := by
  induction cs with
  | nil => simp at h
  | cons c rest ih =>
    by_cases hc : matchesCentre ts tr c = true
    · refine ⟨0, by simp, hc, ?_, ?_⟩
      · intro j d hj; omega
      · simp [scanClusters, hc]
    · have hc' : matchesCentre ts tr c = false := by simpa using hc
      obtain ⟨d, hd, hm⟩ := h
      have hd' : d ∈ rest := by
        rcases List.mem_cons.mp hd with rfl | h'
        · rw [hm] at hc'; exact absurd hc' (by simp)
        · exact h'
      obtain ⟨i, hi, hmi, hmin, hscan⟩ := ih ⟨d, hd', hm⟩
      refine ⟨i + 1, by simpa using hi, by simpa using hmi, ?_, ?_⟩
      · intro j e hj hje
        cases j with
        | zero =>
          simp only [List.getElem?_cons_zero, Option.some.injEq] at hje
          rw [← hje]; exact hc'
        | succ k =>
          simp only [List.getElem?_cons_succ] at hje
          exact hmin k e (by omega) hje
      · simp [scanClusters, hc', hscan]

/-- C1. First-fit assignment: if some cluster of the registry matches the
record `R` (its centre scores `>= 0.2` against `R` on title or on transcript),
then the clustering step returns the registry in which the matching cluster of
smallest index has `R` appended to its members, every other cluster is as it
was, and no cluster is added. -/
theorem first_fit_assignment (clusters : List cluster) (R : content)
    (h : ∃ c ∈ clusters, Matches R c) :
    ∃ i, ∃ hi : i < clusters.length,
      Matches R clusters[i] ∧
      (∀ j c, j < i → clusters[j]? = some c → ¬ Matches R c) ∧
      clusterStep clusters R =
        clusters.set i { Centre := clusters[i].Centre, Members := clusters[i].Members ++ [R] } := by
  obtain ⟨c, hc, hm⟩ := h
  obtain ⟨i, hi, hmi, hmin, hscan⟩ :=
    scanClusters_match (textToSet R.Title) (textToSet R.Transcript) R clusters
      ⟨c, hc, (matchesCentre_iff R c).mpr hm⟩
  refine ⟨i, hi, (matchesCentre_iff R _).mp hmi, ?_, ?_⟩
  · intro j d hj hjd
    exact (matchesCentre_eq_false_iff R d).mp (hmin j d hj hjd)
  · simp [clusterStep, hscan]

/-- C2. Create-on-no-match: if no cluster of the registry matches the record
`R`, the clustering step returns the old registry, unchanged, followed by one
new cluster whose centre is `(textToSet(R.Title), textToSet(R.Transcript),
R.Num)` and whose member list is `[R]`. -/
theorem create_on_no_match (clusters : List cluster) (R : content)
    (h : ∀ c ∈ clusters, ¬ Matches R c) :
    clusterStep clusters R =
      clusters ++ [{ Centre := { Titleset := textToSet R.Title,
                                 Transcriptset := textToSet R.Transcript,
                                 Num := R.Num },
                     Members := [R] }] := by
  have hscan := scanClusters_no_match (textToSet R.Title) (textToSet R.Transcript) R clusters
    (fun c hc => (matchesCentre_eq_false_iff R c).mpr (h c hc))
  simp [clusterStep, hscan]

theorem matches_iff_counts (R : content) (c : cluster) :
    Matches R c ↔
      (0 < (textToSet R.Title ∪ c.Centre.Titleset).card ∧
        (textToSet R.Title ∪ c.Centre.Titleset).card ≤
          5 * (textToSet R.Title ∩ c.Centre.Titleset).card) ∨
      (0 < (textToSet R.Transcript ∪ c.Centre.Transcriptset).card ∧
        (textToSet R.Transcript ∪ c.Centre.Transcriptset).card ≤
          5 * (textToSet R.Transcript ∩ c.Centre.Transcriptset).card) := by
  unfold Matches
  rw [ge_threshold_iff, ge_threshold_iff]

theorem first_fit_assignment_witness :
    (∃ c ∈ [cluster1], Matches comic2 c) ∧
    ∃ i, ∃ hi : i < [cluster1].length,
      Matches comic2 [cluster1][i] ∧
      (∀ j c, j < i → [cluster1][j]? = some c → ¬ Matches comic2 c) ∧
      clusterStep [cluster1] comic2 =
        [cluster1].set i
          { Centre := [cluster1][i].Centre, Members := [cluster1][i].Members ++ [comic2] } :=
  ⟨⟨cluster1, List.mem_singleton_self _, (matches_iff_counts _ _).mpr (by decide)⟩,
    first_fit_assignment [cluster1] comic2
      ⟨cluster1, List.mem_singleton_self _, (matches_iff_counts _ _).mpr (by decide)⟩⟩

theorem create_on_no_match_witness :
    (∀ c ∈ [cluster1], ¬ Matches comic3 c) ∧
    clusterStep [cluster1] comic3 =
      [cluster1] ++ [{ Centre := { Titleset := textToSet comic3.Title,
                                   Transcriptset := textToSet comic3.Transcript,
                                   Num := comic3.Num },
                       Members := [comic3] }] :=
  ⟨fun c hc => by
      rw [List.mem_singleton.mp hc, matches_iff_counts]; decide,
    create_on_no_match [cluster1] comic3 (fun c hc => by
      rw [List.mem_singleton.mp hc, matches_iff_counts]; decide)⟩

/-! ## Invariants of the registry -/

theorem allMembers_cons (c : cluster) (cs : List cluster) :
    allMembers (c :: cs) = c.Members ++ allMembers cs := by
  simp [allMembers]

theorem allMembers_append (cs ds : List cluster) :
    allMembers (cs ++ ds) = allMembers cs ++ allMembers ds := by
  simp [allMembers]

theorem scanClusters_members (ts tr : Finset String) (R : content) (cs : List cluster) :
    ((scanClusters ts tr R cs).2 = false → (scanClusters ts tr R cs).1 = cs) ∧
    ((scanClusters ts tr R cs).2 = true →
      (allMembers (scanClusters ts tr R cs).1).Perm (R :: allMembers cs)) := by
  induction cs with
  | nil => simp [scanClusters]
  | cons c rest ih =>
    by_cases hc : matchesCentre ts tr c = true
    · simp only [scanClusters, hc, if_true, allMembers_cons]
      refine ⟨by simp, fun _ => ?_⟩
      rw [List.append_assoc]
      exact List.perm_middle
    · have hc' : matchesCentre ts tr c = false := by simpa using hc
      simp only [scanClusters, hc', allMembers_cons]
      refine ⟨fun h => ?_, fun h => ?_⟩
      · have := ih.1 (by simpa using h)
        simp [this]
      · have := ih.2 (by simpa using h)
        exact ((List.Perm.append_left c.Members this).trans List.perm_middle)

theorem clusterStep_members (cs : List cluster) (R : content) :
    (allMembers (clusterStep cs R)).Perm (R :: allMembers cs) := by
  have hs := scanClusters_members (textToSet R.Title) (textToSet R.Transcript) R cs
  unfold clusterStep
  cases hf : (scanClusters (textToSet R.Title) (textToSet R.Transcript) R cs).2 with
  | false =>
    simp only [hf, Bool.not_false, if_true, hs.1 hf, allMembers_append]
    refine List.perm_append_comm.trans ?_
    simp [allMembers]
  | true =>
    simp only [hf, Bool.not_true]
    exact hs.2 hf

theorem foldl_clusterStep_members (records : List content) (cs : List cluster) :
    (allMembers (records.foldl clusterStep cs)).Perm (allMembers cs ++ records) := by
  induction records generalizing cs with
  | nil => simp
  | cons r rs ih =>
    rw [List.foldl_cons]
    refine (ih (clusterStep cs r)).trans ?_
    refine ((clusterStep_members cs r).append_right rs).trans ?_
    simpa using (@List.perm_middle _ r (allMembers cs) rs).symm

theorem ingestAll_members (records : List content) :
    (allMembers (ingestAll records)).Perm records := by
  simpa [ingestAll, allMembers] using foldl_clusterStep_members records []

theorem flatten_memberNums (cs : List cluster) :
    (cs.map memberNums).flatten = (allMembers cs).map (fun m => m.Num) := by
  unfold allMembers
  rw [List.map_flatten, List.map_map]
  rfl

theorem sum_member_counts (cs : List cluster) :
    (cs.map (fun c => c.Members.length)).sum = (allMembers cs).length := by
  unfold allMembers
  rw [List.length_flatten, List.map_map]
  rfl

theorem disjoint_memberNums_of_nodup (cs : List cluster)
    (hnd : ((allMembers cs).map (fun m => m.Num)).Nodup)
    (i j : Nat) (ci cj : cluster) (hij : i ≠ j)
    (hi : cs[i]? = some ci) (hj : cs[j]? = some cj) (n : Int)
    (hn : n ∈ memberNums ci) : n ∉ memberNums cj := by
  rw [← flatten_memberNums, List.nodup_flatten] at hnd
  have hpw := List.pairwise_iff_getElem.mp hnd.2
  obtain ⟨hi', rfl⟩ := List.getElem?_eq_some.mp hi
  obtain ⟨hj', rfl⟩ := List.getElem?_eq_some.mp hj
  intro hn'
  rcases Nat.lt_or_gt_of_ne hij with h | h
  · have := hpw i j (by simpa using hi') (by simpa using hj') h
    simp only [List.getElem_map] at this
    exact this hn hn'
  · have := hpw j i (by simpa using hj') (by simpa using hi') h
    simp only [List.getElem_map] at this
    exact this hn' hn

/-- C9. Membership completeness: after the clustering step has been applied,
from the empty registry, to a sequence of `N` records, the member counts of the
clusters add up to `N`; and when the records have pairwise distinct
identifiers, the identifier of each record occurs exactly once in the member
list of one cluster and does not occur in any other cluster. -/
theorem membership_completeness (records : List content) :
    ((ingestAll records).map (fun c => c.Members.length)).sum = records.length ∧
    ((records.map (fun r => r.Num)).Nodup →
      ∀ r ∈ records, ∃ i, ∃ hi : i < (ingestAll records).length,
        (memberNums (ingestAll records)[i]).count r.Num = 1 ∧
        ∀ j c, j ≠ i → (ingestAll records)[j]? = some c → r.Num ∉ memberNums c) := by
  have hperm := ingestAll_members records
  refine ⟨by rw [sum_member_counts, hperm.length_eq], fun hnd r hr => ?_⟩
  have hnd' : ((allMembers (ingestAll records)).map (fun m => m.Num)).Nodup :=
    ((hperm.map (fun m => m.Num)).nodup_iff).mpr hnd
  have hmem : r ∈ allMembers (ingestAll records) := hperm.mem_iff.mpr hr
  unfold allMembers at hmem
  obtain ⟨l, hl, hrl⟩ := List.mem_flatten.mp hmem
  obtain ⟨c, hc, rfl⟩ := List.mem_map.mp hl
  obtain ⟨i, hi, rfl⟩ := List.mem_iff_getElem.mp hc
  have hin : r.Num ∈ memberNums (ingestAll records)[i] :=
    List.mem_map.mpr ⟨r, hrl, rfl⟩
  refine ⟨i, hi, ?_, ?_⟩
  · apply List.count_eq_one_of_mem _ hin
    have h1 := hnd'
    rw [← flatten_memberNums, List.nodup_flatten] at h1
    exact h1.1 _ (List.mem_map.mpr ⟨_, hc, rfl⟩)
  · intro j cj hji hj
    exact disjoint_memberNums_of_nodup (ingestAll records) hnd' i j _ cj (Ne.symm hji)
      (List.getElem?_eq_getElem hi) hj r.Num hin

theorem membership_completeness_witness :
    ([comic1, comic2, comic3].map (fun r => r.Num)).Nodup ∧ comic2 ∈ [comic1, comic2, comic3] ∧
    ∃ i, ∃ hi : i < (ingestAll [comic1, comic2, comic3]).length,
      (memberNums (ingestAll [comic1, comic2, comic3])[i]).count comic2.Num = 1 ∧
      ∀ j c, j ≠ i → (ingestAll [comic1, comic2, comic3])[j]? = some c →
        comic2.Num ∉ memberNums c :=
  ⟨by decide, by simp,
    (membership_completeness [comic1, comic2, comic3]).2 (by decide) comic2 (by simp)⟩

theorem scanClusters_centres (ts tr : Finset String) (R : content) (cs : List cluster) :
    (scanClusters ts tr R cs).1.map (fun c => c.Centre) = cs.map (fun c => c.Centre) := by
  induction cs with
  | nil => rfl
  | cons c rest ih =>
    by_cases hc : matchesCentre ts tr c = true
    · simp [scanClusters, hc]
    · have hc' : matchesCentre ts tr c = false := by simpa using hc
      simp [scanClusters, hc', ih]

theorem clusterStep_centres (cs : List cluster) (R : content) :
    ∃ extra, (clusterStep cs R).map (fun c => c.Centre) = cs.map (fun c => c.Centre) ++ extra := by
  unfold clusterStep
  cases hf : (scanClusters (textToSet R.Title) (textToSet R.Transcript) R cs).2 with
  | false =>
    refine ⟨[{ Titleset := textToSet R.Title, Transcriptset := textToSet R.Transcript,
               Num := R.Num }], ?_⟩
    simp [hf, scanClusters_centres]
  | true =>
    exact ⟨[], by simp [hf, scanClusters_centres]⟩

theorem foldl_clusterStep_centres (records : List content) (cs : List cluster) :
    ∃ extra, (records.foldl clusterStep cs).map (fun c => c.Centre) =
      cs.map (fun c => c.Centre) ++ extra := by
  induction records generalizing cs with
  | nil => exact ⟨[], by simp⟩
  | cons r rs ih =>
    obtain ⟨e1, h1⟩ := clusterStep_centres cs r
    obtain ⟨e2, h2⟩ := ih (clusterStep cs r)
    exact ⟨e1 ++ e2, by rw [List.foldl_cons, h2, h1, List.append_assoc]⟩

theorem centre_at_of_map_eq (cs ds : List cluster) (extra : List centre)
    (h : ds.map (fun c => c.Centre) = cs.map (fun c => c.Centre) ++ extra)
    (i : Nat) (c : cluster) (hi : cs[i]? = some c) :
    ∃ d, ds[i]? = some d ∧ d.Centre = c.Centre := by
  have hlt : i < cs.length := (List.getElem?_eq_some.mp hi).1
  have h1 : (ds.map (fun c => c.Centre))[i]? = some c.Centre := by
    rw [h, List.getElem?_append_left (by simpa using hlt), List.getElem?_map, hi]
    rfl
  rw [List.getElem?_map] at h1
  cases hd : ds[i]? with
  | none => rw [hd] at h1; simp at h1
  | some d =>
    rw [hd] at h1
    exact ⟨d, rfl, by simpa using h1⟩

/-- C10. Centroid immutability: the clustering step keeps every cluster of the
registry at its index with its centre (title token set, transcript token set
and key) unchanged; so does any sequence of clustering steps, whence a
cluster's centre stays the one it was created with. -/
theorem centroid_immutability (clusters : List cluster) (i : Nat) (c : cluster)
    (hi : clusters[i]? = some c) :
    (∀ R : content, ∃ d, (clusterStep clusters R)[i]? = some d ∧ d.Centre = c.Centre) ∧
    (∀ records : List content,
      ∃ d, (records.foldl clusterStep clusters)[i]? = some d ∧ d.Centre = c.Centre) := by
  constructor
  · intro R
    obtain ⟨extra, h⟩ := clusterStep_centres clusters R
    exact centre_at_of_map_eq clusters _ extra h i c hi
  · intro records
    obtain ⟨extra, h⟩ := foldl_clusterStep_centres records clusters
    exact centre_at_of_map_eq clusters _ extra h i c hi

theorem centroid_immutability_witness :
    [cluster1][0]? = some cluster1 ∧
    (∀ R : content, ∃ d, (clusterStep [cluster1] R)[0]? = some d ∧ d.Centre = cluster1.Centre) ∧
    (∀ records : List content,
      ∃ d, (records.foldl clusterStep [cluster1])[0]? = some d ∧ d.Centre = cluster1.Centre) :=
  ⟨rfl, centroid_immutability [cluster1] 0 cluster1 rfl⟩

/-! ## Growth of the registry -/

theorem clusterStep_nil (R : content) :
    clusterStep [] R =
      [{ Centre := { Titleset := textToSet R.Title, Transcriptset := textToSet R.Transcript,
                     Num := R.Num },
         Members := [R] }] := by
  simp [clusterStep, scanClusters]

theorem clusterStep_cons (c : cluster) (rest : List cluster) (R : content) :
    clusterStep (c :: rest) R =
      if Matches R c then { Centre := c.Centre, Members := c.Members ++ [R] } :: rest
      else c :: clusterStep rest R := by
  by_cases h : Matches R c
  · have hm := (matchesCentre_iff R c).mpr h
    simp [clusterStep, scanClusters, hm, h]
  · have hm := (matchesCentre_eq_false_iff R c).mpr h
    simp only [clusterStep, scanClusters, hm, h, if_false]
    cases (scanClusters (textToSet R.Title) (textToSet R.Transcript) R rest).2 <;> simp

/-- The two ways the clustering step can end: the first matching cluster gets
the record, or no cluster matches and a new cluster is appended. -/
theorem clusterStep_cases (cs : List cluster) (R : content) :
    (∃ i, ∃ hi : i < cs.length,
      Matches R cs[i] ∧ (∀ j c, j < i → cs[j]? = some c → ¬ Matches R c) ∧
      clusterStep cs R =
        cs.set i { Centre := cs[i].Centre, Members := cs[i].Members ++ [R] }) ∨
    ((∀ c ∈ cs, ¬ Matches R c) ∧
      clusterStep cs R =
        cs ++ [{ Centre := { Titleset := textToSet R.Title,
                             Transcriptset := textToSet R.Transcript, Num := R.Num },
                 Members := [R] }]) := by
  by_cases h : ∃ c ∈ cs, Matches R c
  · left
    obtain ⟨c, hc, hm⟩ := h
    obtain ⟨i, hi, hmi, hmin, hscan⟩ :=
      scanClusters_match (textToSet R.Title) (textToSet R.Transcript) R cs
        ⟨c, hc, (matchesCentre_iff R c).mpr hm⟩
    refine ⟨i, hi, (matchesCentre_iff R _).mp hmi, ?_, by simp [clusterStep, hscan]⟩
    intro j d hj hjd
    exact (matchesCentre_eq_false_iff R d).mp (hmin j d hj hjd)
  · right
    have h' : ∀ c ∈ cs, ¬ Matches R c := fun c hc hm => h ⟨c, hc, hm⟩
    have hscan := scanClusters_no_match (textToSet R.Title) (textToSet R.Transcript) R cs
      (fun c hc => (matchesCentre_eq_false_iff R c).mpr (h' c hc))
    exact ⟨h', by simp [clusterStep, hscan]⟩

/-- C11. The registry only grows: after the clustering step the number of
clusters is the old one or the old one plus one; every cluster that existed is
at its index with its old member list as the beginning of the new one; and
there is one position of the registry whose member list gains the record at
its end, every other position being as it was. -/
theorem registry_only_grows (clusters : List cluster) (R : content) :
    ((clusterStep clusters R).length = clusters.length ∨
      (clusterStep clusters R).length = clusters.length + 1) ∧
    (∀ (i : Nat) (c : cluster), clusters[i]? = some c →
      ∃ (d : cluster) (extra : List content),
        (clusterStep clusters R)[i]? = some d ∧ d.Members = c.Members ++ extra) ∧
    (∃ i : Nat, i ≤ clusters.length ∧
      (∀ j : Nat, j ≠ i → (clusterStep clusters R)[j]? = clusters[j]?) ∧
      ∃ d : cluster, (clusterStep clusters R)[i]? = some d ∧
        d.Members = ((clusters[i]?).map (fun c => c.Members)).getD [] ++ [R]) := by
  rcases clusterStep_cases clusters R with ⟨i, hi, -, -, hstep⟩ | ⟨-, hstep⟩
  · rw [hstep]
    refine ⟨Or.inl (by simp), ?_, ?_⟩
    · intro k c hk
      rw [List.getElem?_set]
      by_cases hik : i = k
      · subst hik
        rw [List.getElem?_eq_getElem hi] at hk
        have hc : clusters[i] = c := by simpa using hk
        exact ⟨{ Centre := clusters[i].Centre, Members := clusters[i].Members ++ [R] }, [R],
          by simp [hi], by simp [hc]⟩
      · exact ⟨c, [], by simp [hik, hk], by simp⟩
    · refine ⟨i, hi.le, ?_, ?_⟩
      · intro j hj
        rw [List.getElem?_set]
        simp [Ne.symm hj]
      · exact ⟨{ Centre := clusters[i].Centre, Members := clusters[i].Members ++ [R] },
          by simp [List.getElem?_set, hi], by simp [List.getElem?_eq_getElem hi]⟩
  · rw [hstep]
    refine ⟨Or.inr (by simp), ?_, ?_⟩
    · intro k c hk
      have hlt : k < clusters.length := (List.getElem?_eq_some.mp hk).1
      exact ⟨c, [], by rw [List.getElem?_append_left hlt, hk], by simp⟩
    · refine ⟨clusters.length, le_refl _, ?_, ?_⟩
      · intro j hj
        rcases Nat.lt_or_gt_of_ne hj with h | h
        · rw [List.getElem?_append_left h]
        · rw [List.getElem?_eq_none (by simp; omega), List.getElem?_eq_none (by omega)]
      · exact ⟨{ Centre := { Titleset := textToSet R.Title,
                             Transcriptset := textToSet R.Transcript, Num := R.Num },
                 Members := [R] }, by simp, by simp⟩

theorem registry_only_grows_witness :
    [cluster1][0]? = some cluster1 ∧
    ∃ (d : cluster) (extra : List content), (clusterStep [cluster1] comic2)[0]? = some d ∧
      d.Members = cluster1.Members ++ extra :=
  ⟨rfl, (registry_only_grows [cluster1] comic2).2.1 0 cluster1 rfl⟩

/-! ## Concrete runs -/

/-- The comparison `<` of two scores in integers, away from NaN. -/
theorem jaccard_lt_iff (a b a' b' : Finset String)
    (h : (a ∪ b).Nonempty) (h' : (a' ∪ b').Nonempty) :
    Float64.lt (jaccardSimilarity a b) (jaccardSimilarity a' b') = true ↔
      (a ∩ b).card * (a' ∪ b').card < (a' ∩ b').card * (a ∪ b).card := by
  rw [jaccardSimilarity_of_nonempty a b h, jaccardSimilarity_of_nonempty a' b' h']
  have hp : (0 : ℚ) < ((a ∪ b).card : ℚ) := by exact_mod_cast Finset.card_pos.mpr h
  have hp' : (0 : ℚ) < ((a' ∪ b').card : ℚ) := by exact_mod_cast Finset.card_pos.mpr h'
  simp only [Float64.lt, decide_eq_true_eq]
  rw [div_lt_div_iff₀ hp hp']
  exact_mod_cast Iff.rfl

/-- C12. The concrete scenario: the records 1 (`"a b c"`, `"x y"`), 2
(`"a b d"`, `"x y"`) and 3 (`"z q"`, `"m n"`), ingested in this order from the
empty registry, give exactly two clusters: the first keyed 1 with members 1, 2
in this order, the second keyed 3 with member 3; the title score of record 2
against the first centre is 2/4 = 0.5, which is `>= 0.2`. -/
theorem concrete_scenario :
    ingestAll [comic1, comic2, comic3] =
      [{ Centre := { Titleset := textToSet "a b c", Transcriptset := textToSet "x y", Num := 1 },
         Members := [comic1, comic2] },
       { Centre := { Titleset := textToSet "z q", Transcriptset := textToSet "m n", Num := 3 },
         Members := [comic3] }] ∧
    (ingestAll [comic1, comic2, comic3]).map (fun c => (c.Centre.Num, memberNums c)) =
      [(1, [1, 2]), (3, [3])] ∧
    jaccardSimilarity (textToSet "a b d") (textToSet "a b c") = Float64.val (2 / 4) ∧
    (jaccardSimilarity (textToSet "a b d") (textToSet "a b c")).ge threshold = true := by
  have h2 : Matches comic2 (founded comic1) := (matches_iff_counts _ _).mpr (by decide)
  have h3 : ¬ Matches comic3
      { Centre := (founded comic1).Centre, Members := (founded comic1).Members ++ [comic2] } := by
    rw [matches_iff_counts]; decide
  have hrun : ingestAll [comic1, comic2, comic3] =
      [{ Centre := { Titleset := textToSet "a b c", Transcriptset := textToSet "x y", Num := 1 },
         Members := [comic1, comic2] },
       { Centre := { Titleset := textToSet "z q", Transcriptset := textToSet "m n", Num := 3 },
         Members := [comic3] }] := by
    simp only [ingestAll, List.foldl_cons, List.foldl_nil]
    rw [clusterStep_nil, ← founded, clusterStep_cons, if_pos h2, clusterStep_cons, if_neg h3,
      clusterStep_nil]
    rfl
  refine ⟨hrun, by rw [hrun]; rfl, ?_, (ge_threshold_iff _ _).mpr (by decide)⟩
  rw [jaccardSimilarity_of_nonempty _ _ (by decide)]
  have hi : (textToSet "a b d" ∩ textToSet "a b c").card = 2 := by decide
  have hu : (textToSet "a b d" ∪ textToSet "a b c").card = 4 := by decide
  rw [hi, hu]
  norm_num

/-- C18. Greedy, not best-fit: the registry reached by ingesting `greedyA` and
then `greedyB` has two clusters; the record `greedyR` matches the first
(score 1/4 on title and on transcript), the second scores strictly higher on
title and on transcript (2/3), and the clustering step appends `greedyR` to
the first cluster and leaves the second as it was. -/
theorem greedy_not_best_fit :
    ∃ (records : List content) (R : content) (c1 c2 : cluster),
      ingestAll records = [c1, c2] ∧
      Matches R c1 ∧
      Float64.gt (jaccardSimilarity (textToSet R.Title) c2.Centre.Titleset)
        (jaccardSimilarity (textToSet R.Title) c1.Centre.Titleset) = true ∧
      Float64.gt (jaccardSimilarity (textToSet R.Transcript) c2.Centre.Transcriptset)
        (jaccardSimilarity (textToSet R.Transcript) c1.Centre.Transcriptset) = true ∧
      clusterStep [c1, c2] R =
        [{ Centre := c1.Centre, Members := c1.Members ++ [R] }, c2] := by
  have hB : ¬ Matches greedyB (founded greedyA) := by
    rw [matches_iff_counts]; decide
  have hR : Matches greedyR (founded greedyA) := (matches_iff_counts _ _).mpr (by decide)
  refine ⟨[greedyA, greedyB], greedyR, founded greedyA, founded greedyB, ?_, hR, ?_, ?_, ?_⟩
  · simp only [ingestAll, List.foldl_cons, List.foldl_nil]
    rw [clusterStep_nil, ← founded, clusterStep_cons, if_neg hB, clusterStep_nil, ← founded]
  · exact (jaccard_lt_iff _ _ _ _ (by decide) (by decide)).mpr (by decide)
  · exact (jaccard_lt_iff _ _ _ _ (by decide) (by decide)).mpr (by decide)
  · rw [clusterStep_cons, if_pos hR]

/-! ## Upstream failures -/

theorem clusterStep_ne (cs : List cluster) (R : content) : clusterStep cs R ≠ cs := by
  intro h
  have := (clusterStep_members cs R).length_eq
  rw [h] at this
  simp at this

/-- C16. Upstream failure isolation: when `http.Get` fails, when the status is
not 200, and when the body does not decode, `get_and_cluster` leaves the whole
state (registry, snapshot directory, counter `successfulDownloads`) as it was;
when a record was fetched with status 200 and decoded, the counter goes up by
exactly one and the registry is changed by the clustering step. -/
theorem upstream_failure_isolation (st : State) (env : Nat → WriteOutcome) :
    get_and_cluster st Fetched.transportError env = st ∧
    (∀ (code : Int) (decoded : Option content), code ≠ 200 →
      get_and_cluster st (Fetched.response code decoded) env = st) ∧
    get_and_cluster st (Fetched.response 200 none) env = st ∧
    (∀ comic : content,
      (get_and_cluster st (Fetched.response 200 (some comic)) env).successfulDownloads =
        st.successfulDownloads + 1 ∧
      (get_and_cluster st (Fetched.response 200 (some comic)) env).clusters =
        clusterStep st.clusters comic ∧
      (get_and_cluster st (Fetched.response 200 (some comic)) env).clusters ≠ st.clusters) := by
  refine ⟨rfl, ?_, rfl, ?_⟩
  · intro code decoded hcode
    simp [get_and_cluster, hcode]
  · intro comic
    refine ⟨rfl, rfl, ?_⟩
    exact clusterStep_ne st.clusters comic

theorem upstream_failure_isolation_witness :
    (404 : Int) ≠ 200 ∧
    get_and_cluster initialState (Fetched.response 404 (some comic1)) allOk = initialState :=
  ⟨by decide, (upstream_failure_isolation initialState allOk).2.1 404 (some comic1) (by decide)⟩

/-! ## Cluster keys and file names -/

theorem clusterStep_keys (cs : List cluster) (R : content) :
    (clusterStep cs R).map (fun c => c.Centre.Num) = cs.map (fun c => c.Centre.Num) ∨
    (clusterStep cs R).map (fun c => c.Centre.Num) = cs.map (fun c => c.Centre.Num) ++ [R.Num] := by
  rcases clusterStep_cases cs R with ⟨i, hi, -, -, hstep⟩ | ⟨-, hstep⟩
  · left
    rw [hstep, List.map_set]
    apply List.ext_getElem?
    intro k
    rw [List.getElem?_set]
    by_cases hik : i = k
    · subst hik
      simp [hi]
    · simp [hik]
  · right
    simp [hstep]

theorem foldl_clusterStep_keys (records : List content) (cs : List cluster) :
    ∃ sub : List Int, sub.Sublist (records.map (fun r => r.Num)) ∧
      (records.foldl clusterStep cs).map (fun c => c.Centre.Num) =
        cs.map (fun c => c.Centre.Num) ++ sub := by
  induction records generalizing cs with
  | nil => exact ⟨[], by simp, by simp⟩
  | cons r rs ih =>
    obtain ⟨sub, hsub, heq⟩ := ih (clusterStep cs r)
    rw [List.foldl_cons, heq]
    rcases clusterStep_keys cs r with h | h
    · exact ⟨sub, by simpa using hsub.cons r.Num, by rw [h]⟩
    · exact ⟨r.Num :: sub, by simpa using hsub.cons₂ r.Num, by rw [h]; simp⟩

theorem ingestAll_keys_nodup (records : List content)
    (h : (records.map (fun r => r.Num)).Nodup) :
    ((ingestAll records).map (fun c => c.Centre.Num)).Nodup := by
  obtain ⟨sub, hsub, heq⟩ := foldl_clusterStep_keys records []
  unfold ingestAll
  rw [heq]
  simpa using hsub.nodup h

theorem digitChar_inj (a b : Nat) (ha : a < 10) (hb : b < 10)
    (h : Nat.digitChar a = Nat.digitChar b) : a = b := by
  interval_cases a <;> interval_cases b <;> first | rfl | exact absurd h (by decide)

theorem digitChar_ne_minus (a : Nat) (ha : a < 10) : Nat.digitChar a ≠ '-' := by
  interval_cases a <;> decide

theorem map_digitChar_inj (l1 l2 : List Nat) (h1 : ∀ d ∈ l1, d < 10) (h2 : ∀ d ∈ l2, d < 10)
    (h : l1.map Nat.digitChar = l2.map Nat.digitChar) : l1 = l2 := by
  induction l1 generalizing l2 with
  | nil =>
    cases l2 with
    | nil => rfl
    | cons y ys => simp at h
  | cons x xs ih =>
    cases l2 with
    | nil => simp at h
    | cons y ys =>
      simp only [List.map_cons, List.cons.injEq] at h
      have hxy := digitChar_inj x y (h1 x (by simp)) (h2 y (by simp)) h.1
      have := ih ys (fun d hd => h1 d (by simp [hd])) (fun d hd => h2 d (by simp [hd])) h.2
      rw [hxy, this]

theorem fmtNat_zero_ne (m : Nat) (hm : m ≠ 0) :
    ['0'] ≠ (Nat.digits 10 m).reverse.map Nat.digitChar := by
  intro h
  have h0 : (['0'] : List Char) = [0].map Nat.digitChar := rfl
  rw [h0] at h
  have hrev := map_digitChar_inj [0] (Nat.digits 10 m).reverse (by simp)
    (fun d hd => Nat.digits_lt_base (by norm_num) (List.mem_reverse.mp hd)) h
  have hd : Nat.digits 10 m = [0] := by
    have := congrArg List.reverse hrev
    simpa using this.symm
  have := Nat.ofDigits_digits 10 m
  rw [hd] at this
  simp at this
  exact hm this.symm

theorem fmtNat_injective : Function.Injective fmtNat := by
  intro n m h
  unfold fmtNat at h
  by_cases hn : n = 0
  · by_cases hm : m = 0
    · rw [hn, hm]
    · rw [if_pos hn, if_neg hm] at h
      exact absurd h (fmtNat_zero_ne m hm)
  · by_cases hm : m = 0
    · rw [if_neg hn, if_pos hm] at h
      exact absurd h.symm (fmtNat_zero_ne n hn)
    · rw [if_neg hn, if_neg hm] at h
      have hrev := map_digitChar_inj _ _
        (fun d hd => Nat.digits_lt_base (by norm_num) (List.mem_reverse.mp hd))
        (fun d hd => Nat.digits_lt_base (by norm_num) (List.mem_reverse.mp hd)) h
      exact Nat.digits.injective 10 (List.reverse_injective hrev)

theorem fmtNat_no_minus (n : Nat) : ∀ c ∈ fmtNat n, c ≠ '-' := by
  intro c hc
  unfold fmtNat at hc
  by_cases hn : n = 0
  · rw [if_pos hn] at hc
    rw [List.mem_singleton.mp hc]
    decide
  · rw [if_neg hn] at hc
    obtain ⟨d, hd, rfl⟩ := List.mem_map.mp hc
    exact digitChar_ne_minus d (Nat.digits_lt_base (by norm_num) (List.mem_reverse.mp hd))

theorem fmtInt_injective : Function.Injective fmtInt := by
  intro n m h
  unfold fmtInt at h
  by_cases hn : n < 0 <;> by_cases hm : m < 0
  · rw [if_pos hn, if_pos hm] at h
    have := fmtNat_injective (List.cons.inj h).2
    omega
  · rw [if_pos hn, if_neg hm] at h
    exact absurd rfl (fmtNat_no_minus m.natAbs '-' (by rw [← h]; simp))
  · rw [if_neg hn, if_pos hm] at h
    exact absurd rfl (fmtNat_no_minus n.natAbs '-' (by rw [h]; simp))
  · rw [if_neg hn, if_neg hm] at h
    have := fmtNat_injective h
    omega

theorem keyPath_injective : Function.Injective keyPath := by
  intro n m h
  unfold keyPath at h
  have h1 := congrArg String.data h
  simp only at h1
  rw [List.append_assoc, List.append_assoc] at h1
  exact fmtInt_injective (List.append_cancel_right (List.append_cancel_left h1))

/-- C14. Cluster key uniqueness: after ingesting, from the empty registry, any
sequence of records with pairwise distinct identifiers, the centre keys of the
clusters are pairwise distinct, and so are the names of their snapshot
files. -/
theorem cluster_key_uniqueness (records : List content)
    (h : (records.map (fun r => r.Num)).Nodup) :
    ((ingestAll records).map (fun c => c.Centre.Num)).Nodup ∧
    ((ingestAll records).map filePath).Nodup := by
  have hk := ingestAll_keys_nodup records h
  refine ⟨hk, ?_⟩
  have : (ingestAll records).map filePath =
      ((ingestAll records).map (fun c => c.Centre.Num)).map keyPath := by
    rw [List.map_map]; rfl
  rw [this]
  exact hk.map keyPath_injective

theorem cluster_key_uniqueness_witness :
    ([comic1, comic2, comic3].map (fun r => r.Num)).Nodup ∧
    ((ingestAll [comic1, comic2, comic3]).map (fun c => c.Centre.Num)).Nodup ∧
    ((ingestAll [comic1, comic2, comic3]).map filePath).Nodup :=
  ⟨by decide, cluster_key_uniqueness [comic1, comic2, comic3] (by decide)⟩

/-! ## The persistence pass -/

theorem saveCluster_creates (fs : FileSystem) (c : cluster) (o : WriteOutcome) :
    (saveCluster fs c o).1.creates = fs.creates ++ [filePath c] := by
  cases o <;> rfl

theorem saveCluster_other (fs : FileSystem) (c : cluster) (o : WriteOutcome) (p : String)
    (hp : p ≠ filePath c) : (saveCluster fs c o).1.contents p = fs.contents p := by
  cases o <;> simp [saveCluster, hp]

theorem saveCluster_ok (fs : FileSystem) (c : cluster) :
    (saveCluster fs c WriteOutcome.ok).1.contents (filePath c) = some (Stored.snapshot c) := by
  simp [saveCluster]

theorem persistLoop_creates (env : Nat → WriteOutcome) (cs : List cluster) (k : Nat)
    (fs : FileSystem) :
    (persistLoop env k cs fs).creates = fs.creates ++ cs.map filePath := by
  induction cs generalizing k fs with
  | nil => simp [persistLoop]
  | cons c rest ih =>
    rw [persistLoop, ih, saveCluster_creates]
    simp

theorem persistLoop_untouched (env : Nat → WriteOutcome) (cs : List cluster) (k : Nat)
    (fs : FileSystem) (p : String) (hp : p ∉ cs.map filePath) :
    (persistLoop env k cs fs).contents p = fs.contents p := by
  induction cs generalizing k fs with
  | nil => rfl
  | cons c rest ih =>
    rw [persistLoop, ih _ _ (fun h => hp (by simp [h]))]
    exact saveCluster_other fs c (env k) p (fun h => hp (by simp [h]))

/-- After the pass, a cluster whose write succeeded and whose file name no
other cluster of the registry has, is stored in its file. -/
theorem persistLoop_lookup (env : Nat → WriteOutcome) (cs : List cluster) (k : Nat)
    (fs : FileSystem) (hnd : (cs.map filePath).Nodup) (i : Nat) (c : cluster)
    (hi : cs[i]? = some c) (hok : env (k + i) = WriteOutcome.ok) :
    (persistLoop env k cs fs).contents (filePath c) = some (Stored.snapshot c) := by
  induction cs generalizing k fs i with
  | nil => simp at hi
  | cons d rest ih =>
    rw [List.map_cons, List.nodup_cons] at hnd
    cases i with
    | zero =>
      simp only [List.getElem?_cons_zero, Option.some.injEq] at hi
      subst hi
      rw [persistLoop, persistLoop_untouched _ _ _ _ _ hnd.1]
      rw [Nat.add_zero] at hok
      rw [hok]
      exact saveCluster_ok fs d
    | succ j =>
      simp only [List.getElem?_cons_succ] at hi
      rw [persistLoop]
      exact ih (k + 1) _ hnd.2 j hi (by rw [← hok]; congr 1; omega)

theorem filePath_nodup_of_keys (cs : List cluster)
    (h : (cs.map (fun c => c.Centre.Num)).Nodup) : (cs.map filePath).Nodup := by
  have : cs.map filePath = (cs.map (fun c => c.Centre.Num)).map keyPath := by
    rw [List.map_map]; rfl
  rw [this]
  exact h.map keyPath_injective

theorem stateAfterDupB_clusters : stateAfterDupB.clusters = [founded dupA, founded dupB] := by
  have hB : ¬ Matches dupB (founded dupA) := by
    rw [matches_iff_counts]; decide
  show clusterStep (clusterStep [] dupA) dupB = _
  rw [clusterStep_nil, ← founded, clusterStep_cons, if_neg hB, clusterStep_nil, ← founded]

theorem stateAfterDupBFailing_clusters :
    stateAfterDupBFailing.clusters = [founded dupA, founded dupB] :=
  stateAfterDupB_clusters

/-- C13, counterexample. After `dupA` and `dupB`, two records with the same
identifier 7 and no common token, were ingested with every write succeeding,
the registry holds the cluster founded by `dupA`, but the file named after its
key holds the snapshot of the cluster founded by `dupB`, not its own. -/
theorem persistence_consistency_fails_on_equal_keys :
    founded dupA ∈ stateAfterDupB.clusters ∧
    stateAfterDupB.fs.contents (filePath (founded dupA)) =
      some (Stored.snapshot (founded dupB)) ∧
    ¬ (∀ c ∈ stateAfterDupB.clusters,
        stateAfterDupB.fs.contents (filePath c) = some (Stored.snapshot c)) := by
  have hmem : founded dupA ∈ stateAfterDupB.clusters := by
    rw [stateAfterDupB_clusters]; simp
  have hfs : stateAfterDupB.fs =
      persistLoop allOk 0 [founded dupA, founded dupB] stateAfterDupA.fs := by
    show persistLoop allOk 0 stateAfterDupB.clusters stateAfterDupA.fs = _
    rw [stateAfterDupB_clusters]
  have hpath : filePath (founded dupA) = filePath (founded dupB) := rfl
  have hval : stateAfterDupB.fs.contents (filePath (founded dupA)) =
      some (Stored.snapshot (founded dupB)) := by
    rw [hfs, hpath]
    simp [persistLoop, saveCluster, allOk]
  refine ⟨hmem, hval, fun hall => ?_⟩
  have := hall (founded dupA) hmem
  rw [hval] at this
  exact absurd this (by decide)

/-- C13, amended. After an ingest in which no write fails and which leaves the
centre keys of the registry pairwise distinct, the file named after the key of
every cluster of the registry (touched by the record or not) holds the
snapshot of that cluster as it is in memory; and a successful write puts the
snapshot in the place of whatever the file held, leaving every other file as
it was. -/
theorem persistence_consistency (st : State) (comic : content) (env : Nat → WriteOutcome)
    (hok : ∀ k : Nat, k < (clusterStep st.clusters comic).length → env k = WriteOutcome.ok)
    (hkeys : ((clusterStep st.clusters comic).map (fun c => c.Centre.Num)).Nodup) :
    (∀ c ∈ (get_and_cluster st (Fetched.response 200 (some comic)) env).clusters,
      (get_and_cluster st (Fetched.response 200 (some comic)) env).fs.contents (filePath c) =
        some (Stored.snapshot c)) ∧
    (∀ (fs : FileSystem) (c : cluster),
      (saveCluster fs c WriteOutcome.ok).1.contents (filePath c) = some (Stored.snapshot c) ∧
      ∀ p : String, p ≠ filePath c →
        (saveCluster fs c WriteOutcome.ok).1.contents p = fs.contents p) := by
  refine ⟨fun c hc => ?_, fun fs c => ⟨saveCluster_ok fs c, fun p hp => saveCluster_other fs c _ p hp⟩⟩
  have hc' : c ∈ clusterStep st.clusters comic := hc
  obtain ⟨i, hi, hic⟩ := List.mem_iff_getElem.mp hc'
  show (persistLoop env 0 (clusterStep st.clusters comic) st.fs).contents (filePath c) = _
  refine persistLoop_lookup env _ 0 st.fs (filePath_nodup_of_keys _ hkeys) i c ?_ ?_
  · rw [List.getElem?_eq_getElem hi, hic]
  · rw [Nat.zero_add]
    exact hok i hi

theorem stateAfterComic1_step3_keys :
    ((clusterStep stateAfterComic1.clusters comic3).map (fun c => c.Centre.Num)).Nodup := by
  have h3 : ¬ Matches comic3 (founded comic1) := by rw [matches_iff_counts]; decide
  show ((clusterStep (clusterStep [] comic1) comic3).map (fun c => c.Centre.Num)).Nodup
  rw [clusterStep_nil, ← founded, clusterStep_cons, if_neg h3, clusterStep_nil]
  decide

theorem persistence_consistency_witness :
    (∀ k : Nat, k < (clusterStep stateAfterComic1.clusters comic3).length →
      allOk k = WriteOutcome.ok) ∧
    ((clusterStep stateAfterComic1.clusters comic3).map (fun c => c.Centre.Num)).Nodup ∧
    ∀ c ∈ (get_and_cluster stateAfterComic1 (Fetched.response 200 (some comic3)) allOk).clusters,
      (get_and_cluster stateAfterComic1 (Fetched.response 200 (some comic3))
        allOk).fs.contents (filePath c) = some (Stored.snapshot c) :=
  ⟨fun _ _ => rfl, stateAfterComic1_step3_keys,
    (persistence_consistency stateAfterComic1 comic3 allOk (fun _ _ => rfl)
      stateAfterComic1_step3_keys).1⟩

/-- C15, counterexample. `dupB` is ingested after `dupA` (same identifier 7);
in the persistence pass the write of the first cluster succeeds and the
encoder fails for the second.  The first cluster's write succeeded, yet its
file does not hold its snapshot: the failed write of the second cluster,
which has the same file name, emptied it. -/
theorem persistence_failure_isolation_fails_on_equal_keys :
    stateAfterDupBFailing.clusters[0]? = some (founded dupA) ∧
    secondEncodeFails 0 = WriteOutcome.ok ∧
    stateAfterDupBFailing.fs.contents (filePath (founded dupA)) = some Stored.incomplete ∧
    stateAfterDupBFailing.fs.contents (filePath (founded dupA)) ≠
      some (Stored.snapshot (founded dupA)) := by
  have hfs : stateAfterDupBFailing.fs =
      persistLoop secondEncodeFails 0 [founded dupA, founded dupB] stateAfterDupA.fs := by
    show persistLoop secondEncodeFails 0 stateAfterDupBFailing.clusters stateAfterDupA.fs = _
    rw [stateAfterDupBFailing_clusters]
  have hpath : filePath (founded dupA) = filePath (founded dupB) := rfl
  have hval : stateAfterDupBFailing.fs.contents (filePath (founded dupA)) =
      some Stored.incomplete := by
    rw [hfs, hpath]
    simp [persistLoop, saveCluster, secondEncodeFails]
  refine ⟨by rw [stateAfterDupBFailing_clusters]; rfl, rfl, hval, ?_⟩
  rw [hval]
  decide

/-- C15, amended. Whatever writes fail in the persistence pass of an ingest,
the registry and the counter after the ingest are those of the ingest in which
every write succeeds; `os.Create` is called once for every cluster of the
registry, in registry order; and every cluster whose write succeeds has its
snapshot in its file, provided the centre keys of the registry are pairwise
distinct. -/
theorem persistence_failure_isolation (st : State) (comic : content)
    (env : Nat → WriteOutcome) :
    ((get_and_cluster st (Fetched.response 200 (some comic)) env).clusters =
        (get_and_cluster st (Fetched.response 200 (some comic)) allOk).clusters ∧
      (get_and_cluster st (Fetched.response 200 (some comic)) env).successfulDownloads =
        (get_and_cluster st (Fetched.response 200 (some comic)) allOk).successfulDownloads) ∧
    (get_and_cluster st (Fetched.response 200 (some comic)) env).fs.creates =
      st.fs.creates ++
        (get_and_cluster st (Fetched.response 200 (some comic)) env).clusters.map filePath ∧
    (((get_and_cluster st (Fetched.response 200 (some comic)) env).clusters.map
        (fun c => c.Centre.Num)).Nodup →
      ∀ (i : Nat) (c : cluster),
        (get_and_cluster st (Fetched.response 200 (some comic)) env).clusters[i]? = some c →
        env i = WriteOutcome.ok →
        (get_and_cluster st (Fetched.response 200 (some comic)) env).fs.contents (filePath c) =
          some (Stored.snapshot c)) := by
  refine ⟨⟨rfl, rfl⟩, ?_, ?_⟩
  · exact persistLoop_creates env (clusterStep st.clusters comic) 0 st.fs
  · intro hkeys i c hi hok
    show (persistLoop env 0 (clusterStep st.clusters comic) st.fs).contents (filePath c) = _
    exact persistLoop_lookup env _ 0 st.fs (filePath_nodup_of_keys _ hkeys) i c hi
      (by rw [Nat.zero_add]; exact hok)

theorem persistence_failure_isolation_witness :
    ((get_and_cluster stateAfterComic1 (Fetched.response 200 (some comic3))
        secondEncodeFails).clusters.map (fun c => c.Centre.Num)).Nodup ∧
    (get_and_cluster stateAfterComic1 (Fetched.response 200 (some comic3))
        secondEncodeFails).clusters[0]? = some cluster1 ∧
    secondEncodeFails 0 = WriteOutcome.ok ∧
    (get_and_cluster stateAfterComic1 (Fetched.response 200 (some comic3))
        secondEncodeFails).fs.contents (filePath cluster1) = some (Stored.snapshot cluster1) :=
  have h0 : (get_and_cluster stateAfterComic1 (Fetched.response 200 (some comic3))
      secondEncodeFails).clusters[0]? = some cluster1 := by
    have h3 : ¬ Matches comic3 (founded comic1) := by rw [matches_iff_counts]; decide
    show (clusterStep (clusterStep [] comic1) comic3)[0]? = some cluster1
    rw [clusterStep_nil, ← founded, clusterStep_cons, if_neg h3]
    rfl
  ⟨stateAfterComic1_step3_keys, h0, rfl,
    (persistence_failure_isolation stateAfterComic1 comic3 secondEncodeFails).2.2
      stateAfterComic1_step3_keys 0 cluster1 h0 rfl⟩

/-! ## Founders and placement -/

theorem founder_step (cs : List cluster) (R : content)
    (h : ∀ c ∈ cs, ∃ m : content, c.Members.head? = some m ∧ m.Num = c.Centre.Num ∧
      c.Centre.Titleset = textToSet m.Title ∧ c.Centre.Transcriptset = textToSet m.Transcript) :
    ∀ c ∈ clusterStep cs R, ∃ m : content, c.Members.head? = some m ∧ m.Num = c.Centre.Num ∧
      c.Centre.Titleset = textToSet m.Title ∧ c.Centre.Transcriptset = textToSet m.Transcript := by
  induction cs with
  | nil =>
    intro c hc
    rw [clusterStep_nil, List.mem_singleton] at hc
    subst hc
    exact ⟨R, rfl, rfl, rfl, rfl⟩
  | cons d rest ih =>
    intro c hc
    rw [clusterStep_cons] at hc
    by_cases hm : Matches R d
    · rw [if_pos hm, List.mem_cons] at hc
      rcases hc with rfl | hc
      · obtain ⟨m, hhead, hrest⟩ := h d (by simp)
        refine ⟨m, ?_, hrest⟩
        cases hd : d.Members with
        | nil => rw [hd] at hhead; simp at hhead
        | cons x xs => rw [hd] at hhead; simpa using hhead
      · exact h c (by simp [hc])
    · rw [if_neg hm, List.mem_cons] at hc
      rcases hc with rfl | hc
      · exact h c (by simp)
      · exact ih (fun e he => h e (by simp [he])) c hc

/-- C19. Founder invariant: in every registry reached from the empty registry
by a sequence of ingests, every cluster has a non-empty member list, the
identifier of its first member is the centre key, and the centre's title and
transcript token sets are `textToSet` of that member's title and
transcript. -/
theorem founder_invariant (records : List content) :
    ∀ c ∈ ingestAll records,
      c.Members ≠ [] ∧
      ∃ m : content, c.Members.head? = some m ∧ m.Num = c.Centre.Num ∧
        c.Centre.Titleset = textToSet m.Title ∧
        c.Centre.Transcriptset = textToSet m.Transcript := by
  have key : ∀ (rs : List content) (cs : List cluster),
      (∀ c ∈ cs, ∃ m : content, c.Members.head? = some m ∧ m.Num = c.Centre.Num ∧
        c.Centre.Titleset = textToSet m.Title ∧
        c.Centre.Transcriptset = textToSet m.Transcript) →
      ∀ c ∈ rs.foldl clusterStep cs, ∃ m : content, c.Members.head? = some m ∧
        m.Num = c.Centre.Num ∧ c.Centre.Titleset = textToSet m.Title ∧
        c.Centre.Transcriptset = textToSet m.Transcript := by
    intro rs
    induction rs with
    | nil => intro cs h; simpa using h
    | cons r rs ih =>
      intro cs h
      rw [List.foldl_cons]
      exact ih _ (founder_step cs r h)
  intro c hc
  obtain ⟨m, hhead, hrest⟩ := key records [] (by simp) c hc
  refine ⟨?_, m, hhead, hrest⟩
  intro hnil
  rw [hnil] at hhead
  simp at hhead

theorem founder_invariant_witness :
    cluster1 ∈ ingestAll [comic1] ∧
    cluster1.Members ≠ [] ∧
    ∃ m : content, cluster1.Members.head? = some m ∧ m.Num = cluster1.Centre.Num ∧
      cluster1.Centre.Titleset = textToSet m.Title ∧
      cluster1.Centre.Transcriptset = textToSet m.Transcript :=
  have h : cluster1 ∈ ingestAll [comic1] := by
    show cluster1 ∈ clusterStep [] comic1
    rw [clusterStep_nil]
    exact List.mem_singleton.mpr rfl
  ⟨h, founder_invariant [comic1] cluster1 h⟩

theorem matches_congr (m : content) (c d : cluster) (h : c.Centre = d.Centre) :
    Matches m c ↔ Matches m d := by
  unfold Matches
  rw [h]

theorem member_origin (cs : List cluster) (R : content) (d : cluster)
    (hd : d ∈ clusterStep cs R) (m : content) (hm : m ∈ d.Members) :
    m = R ∨ ∃ d0 ∈ cs, m ∈ d0.Members := by
  have h1 : m ∈ allMembers (clusterStep cs R) := by
    unfold allMembers
    exact List.mem_flatten.mpr ⟨d.Members, List.mem_map.mpr ⟨d, hd, rfl⟩, hm⟩
  have h2 := (clusterStep_members cs R).mem_iff.mp h1
  rcases List.mem_cons.mp h2 with h | h
  · exact Or.inl h
  · right
    unfold allMembers at h
    obtain ⟨l, hl, hml⟩ := List.mem_flatten.mp h
    obtain ⟨d0, hd0, rfl⟩ := List.mem_map.mp hl
    exact ⟨d0, hd0, hml⟩

theorem placement_step_earlier (cs : List cluster) (R : content)
    (h : cs.Pairwise (fun cj ci => ∀ m ∈ ci.Members, ¬ Matches m cj)) :
    (clusterStep cs R).Pairwise (fun cj ci => ∀ m ∈ ci.Members, ¬ Matches m cj) := by
  induction cs with
  | nil => rw [clusterStep_nil]; simp
  | cons c rest ih =>
    rw [List.pairwise_cons] at h
    rw [clusterStep_cons]
    by_cases hm : Matches R c
    · rw [if_pos hm, List.pairwise_cons]
      refine ⟨fun d hd m hmd hmatch => ?_, h.2⟩
      exact h.1 d hd m hmd ((matches_congr m _ c rfl).mp hmatch)
    · rw [if_neg hm, List.pairwise_cons]
      refine ⟨fun d hd m hmd => ?_, ih h.2⟩
      rcases member_origin rest R d hd m hmd with rfl | ⟨d0, hd0, hmd0⟩
      · exact hm
      · exact h.1 d0 hd0 m hmd0

theorem mem_tail_append_singleton (l : List content) (R m : content)
    (h : m ∈ (l ++ [R]).tail) : m ∈ l.tail ∨ m = R := by
  cases l with
  | nil => simp at h
  | cons x xs =>
    simp only [List.cons_append, List.tail_cons, List.mem_append, List.mem_singleton] at h
    simpa using h

theorem placement_step_own (cs : List cluster) (R : content)
    (h : ∀ c ∈ cs, ∀ m ∈ c.Members.tail, Matches m c) :
    ∀ c ∈ clusterStep cs R, ∀ m ∈ c.Members.tail, Matches m c := by
  induction cs with
  | nil =>
    intro c hc m hm
    rw [clusterStep_nil, List.mem_singleton] at hc
    subst hc
    simp at hm
  | cons d rest ih =>
    intro c hc m hm
    rw [clusterStep_cons] at hc
    by_cases hmd : Matches R d
    · rw [if_pos hmd, List.mem_cons] at hc
      rcases hc with rfl | hc
      · rcases mem_tail_append_singleton d.Members R m hm with h1 | rfl
        · exact (matches_congr m _ d rfl).mpr (h d (by simp) m h1)
        · exact (matches_congr m _ d rfl).mpr hmd
      · exact h c (by simp [hc]) m hm
    · rw [if_neg hmd, List.mem_cons] at hc
      rcases hc with rfl | hc
      · exact h c (by simp) m hm
      · exact ih (fun e he => h e (by simp [he])) c hc m hm

/-- Placement, in terms of the test of line 111: in every registry reached from
the empty registry, no member of a cluster passes the test `>= 0.2` (on title
or on transcript) against the centre of an earlier cluster, and every member
of a cluster other than its first passes it against the cluster's own
centre. -/
theorem placement_invariant (records : List content) :
    (∀ (i j : Nat) (ci cj : cluster), j < i →
      (ingestAll records)[i]? = some ci → (ingestAll records)[j]? = some cj →
      ∀ m ∈ ci.Members, ¬ Matches m cj) ∧
    (∀ c ∈ ingestAll records, ∀ m ∈ c.Members.tail, Matches m c) := by
  have key : ∀ (rs : List content) (cs : List cluster),
      cs.Pairwise (fun cj ci => ∀ m ∈ ci.Members, ¬ Matches m cj) →
      (∀ c ∈ cs, ∀ m ∈ c.Members.tail, Matches m c) →
      (rs.foldl clusterStep cs).Pairwise (fun cj ci => ∀ m ∈ ci.Members, ¬ Matches m cj) ∧
      (∀ c ∈ rs.foldl clusterStep cs, ∀ m ∈ c.Members.tail, Matches m c) := by
    intro rs
    induction rs with
    | nil => intro cs h1 h2; exact ⟨h1, h2⟩
    | cons r rs ih =>
      intro cs h1 h2
      rw [List.foldl_cons]
      exact ih _ (placement_step_earlier cs r h1) (placement_step_own cs r h2)
  obtain ⟨hp, hq⟩ := key records [] List.Pairwise.nil (by simp)
  refine ⟨?_, hq⟩
  intro i j ci cj hji hi hj m hm
  obtain ⟨hi', rfl⟩ := List.getElem?_eq_some.mp hi
  obtain ⟨hj', rfl⟩ := List.getElem?_eq_some.mp hj
  exact List.pairwise_iff_getElem.mp hp j i hj' hi' hji m hm

/-- Away from NaN, failing the test `>= 0.2` is scoring below 0.2. -/
theorem lt_threshold_of_not_ge (a b : Finset String) (h : (a ∪ b).Nonempty)
    (hge : (jaccardSimilarity a b).ge threshold = false) :
    Float64.lt (jaccardSimilarity a b) threshold = true := by
  rw [jaccardSimilarity_of_nonempty a b h] at hge ⊢
  simp only [Float64.ge, Float64.le, threshold, decide_eq_false_iff_not, not_le] at hge
  simpa [Float64.lt, threshold] using hge

/-- Placement, in terms of scores: in every registry reached from the empty
registry, a member of a cluster scores below 0.2 against the centre of an
earlier cluster on title, unless its title token set and the centre's are both
empty, and on transcript, unless its transcript token set and the centre's are
both empty. -/
theorem placement_below_threshold (records : List content)
    (i j : Nat) (ci cj : cluster) (hji : j < i)
    (hi : (ingestAll records)[i]? = some ci) (hj : (ingestAll records)[j]? = some cj)
    (m : content) (hm : m ∈ ci.Members) :
    ((textToSet m.Title ∪ cj.Centre.Titleset).Nonempty →
      Float64.lt (jaccardSimilarity (textToSet m.Title) cj.Centre.Titleset) threshold = true) ∧
    ((textToSet m.Transcript ∪ cj.Centre.Transcriptset).Nonempty →
      Float64.lt (jaccardSimilarity (textToSet m.Transcript) cj.Centre.Transcriptset)
        threshold = true) := by
  have hno := (placement_invariant records).1 i j ci cj hji hi hj m hm
  unfold Matches at hno
  rw [not_or] at hno
  exact ⟨fun h => lt_threshold_of_not_ge _ _ h (by simpa using hno.1),
    fun h => lt_threshold_of_not_ge _ _ h (by simpa using hno.2)⟩

/-- C20, at the failing input. `nanA` and `nanB` have different titles and
empty transcripts; ingested in this order they found two clusters.  The member
`nanB` of the second cluster has, against the centre of the first, the
transcript score `0/0`, NaN, and `NaN < 0.2` is false: the score is not below
0.2 (it is not `>= 0.2` either). -/
theorem placement_score_not_below_threshold :
    ingestAll [nanA, nanB] = [founded nanA, founded nanB] ∧
    nanB ∈ (founded nanB).Members ∧
    jaccardSimilarity (textToSet nanB.Transcript) (founded nanA).Centre.Transcriptset =
      Float64.nan ∧
    Float64.lt (jaccardSimilarity (textToSet nanB.Transcript)
      (founded nanA).Centre.Transcriptset) threshold = false ∧
    Float64.ge (jaccardSimilarity (textToSet nanB.Transcript)
      (founded nanA).Centre.Transcriptset) threshold = false := by
  have hB : ¬ Matches nanB (founded nanA) := by
    rw [matches_iff_counts]; decide
  have hnan : jaccardSimilarity (textToSet nanB.Transcript)
      (founded nanA).Centre.Transcriptset = Float64.nan := by decide
  refine ⟨?_, by simp [founded], hnan, by rw [hnan]; rfl, by rw [hnan]; rfl⟩
  simp only [ingestAll, List.foldl_cons, List.foldl_nil]
  rw [clusterStep_nil, ← founded, clusterStep_cons, if_neg hB, clusterStep_nil, ← founded]

end GoCluster
